import Mathlib

/-!
# Verification of the keyword search-volume tool (`app.py`)

Shallow embedding of the keyword search-volume Streamlit tool.  The
program fetches keyword IDs and per-keyword metrics from a remote HTTP
API, normalizes the heterogeneous JSON responses into flat records
`{keyword, search_volume}`, and renders/exports the resulting table.

Modelling conventions:
* JSON values are the inductive `JVal`; JSON numbers are modelled as
  integers (the volumes handled by the program are integral).
* Python `dict`s (which preserve insertion order and update in place)
  are modelled as association lists with the `upsert` operation.
* Python string `.lower()` is modelled as `pyLower` (ASCII lowercasing,
  character by character).
* Fallible code paths (uncaught exceptions such as `AttributeError`
  raised by `.lower()` on a non-string) are modelled with `Option`:
  `none` means the Python function raises.
* The network is an oracle: the response to the keyword-ID request and
  to each numbered batch request is given by a `BatchResp` value.
-/

set_option autoImplicit false
set_option maxRecDepth 4000

/-- JSON values, as produced by `response.json()`.  Numbers are modelled
as integers. -/
inductive JVal where
  | null
  | jbool (b : Bool)
  | jnum (n : Int)
  | jstr (s : String)
  | jarr (items : List JVal)
  | jobj (fields : List (String × JVal))
deriving Repr

/-- A JSON object, i.e. the field list of a `JVal.jobj`. -/
abbrev JObj := List (String × JVal)

/-- Python `d.get(k)` on a JSON object: the value of the first binding of
`k`, if any.  (JSON objects have unique keys, so "first" is harmless.) -/
def jget (o : JObj) (k : String) : Option JVal :=
  match o with
  | [] => none
  | (k', v) :: rest => if k' = k then some v else jget rest k

/-- Python `d.get(k)` collapsing a stored `null` to "absent": in Python a
key bound to `None` is indistinguishable from a missing key via `get`. -/
def jgetNN (o : JObj) (k : String) : Option JVal :=
  match jget o k with
  | some JVal.null => none
  | r => r

/-- Python truthiness of a JSON value (`if x:`). -/
def jtruthy : JVal → Bool
  | JVal.null => false
  | JVal.jbool b => b
  | JVal.jnum n => n != 0
  | JVal.jstr s => s != ""
  | JVal.jarr items => !items.isEmpty
  | JVal.jobj fields => !fields.isEmpty

/-- Model of Python `str.lower()` (ASCII). -/
def pyLower (s : String) : String :=
  String.mk (s.data.map Char.toLower)

/-- Drop leading/trailing whitespace, model of Python `str.strip()`. -/
def trimChars (cs : List Char) : List Char :=
  ((cs.dropWhile Char.isWhitespace).reverse.dropWhile Char.isWhitespace).reverse

/-- Numeric value of an ASCII digit character. -/
def charDigit (c : Char) : Nat := c.toNat - 48

/-- Split a character list on underscores (model of `str.split` on `_`,
used to express CPython's digit-grouping rule for `int(str)`). -/
def splitUnderscore : List Char → List (List Char)
  | [] => [[]]
  | '_' :: rest => [] :: splitUnderscore rest
  | c :: rest =>
    match splitUnderscore rest with
    | g :: gs => (c :: g) :: gs
    | [] => [[c]]

/-- Model of Python `int(s)` on a string: strip whitespace, optional
sign, then ASCII digit groups separated by single underscores. -/
def pyIntOfStr (s : String) : Option Int :=
  let cs := trimChars s.data
  let signDigits : Bool × List Char :=
    match cs with
    | '-' :: rest => (true, rest)
    | '+' :: rest => (false, rest)
    | _ => (false, cs)
  let ds := signDigits.2
  let groups := splitUnderscore ds
  if !ds.isEmpty && groups.all (fun g => !g.isEmpty && g.all Char.isDigit) then
    let n : Int := Nat.ofDigits 10 ((groups.flatten.map charDigit).reverse)
    some (if signDigits.1 then -n else n)
  else
    none

/-- Model of Python `int(x)` on a JSON value, as used inside the
`try: int(search_volume) except (TypeError, ValueError)` block of
`process_results`.  `none` models the raised exception. -/
def pyInt : JVal → Option Int
  | JVal.jnum n => some n
  | JVal.jbool b => some (if b then 1 else 0)
  | JVal.jstr s => pyIntOfStr s
  | _ => none

/-- The normalized per-keyword output record built by `process_results`
(the spec's KeywordRecord; only the two fields the program produces). -/
structure KeywordRecord where
  keyword : String
  search_volume : Int
deriving Repr, DecidableEq

/-! ## Python dict model (insertion-ordered association list) -/

/-- `d[k] = v` on a Python dict: update in place if the key is present
(keeping its position), else append at the end. -/
def upsert {α : Type} (m : List (String × α)) (k : String) (v : α) :
    List (String × α) :=
  match m with
  | [] => [(k, v)]
  | (k', v') :: rest =>
    if k' = k then (k, v) :: rest else (k', v') :: upsert rest k v

/-- `d.get(k)` on the dict model. -/
def lookupD {α : Type} (m : List (String × α)) (k : String) : Option α :=
  match m with
  | [] => none
  | (k', v) :: rest => if k' = k then some v else lookupD rest k

/-- `k in d` on the dict model. -/
def containsKeyD {α : Type} (m : List (String × α)) (k : String) : Bool :=
  (lookupD m k).isSome

/-- The keys of the dict, in order. -/
def keysD {α : Type} (m : List (String × α)) : List String :=
  m.map Prod.fst

/-! ## `process_results` (app.py lines 146-192) -/

/-- `item.get('keyword', '').lower()` (line 154): absent key defaults to
`''`; a present non-string value raises `AttributeError` on `.lower()`
(not caught by the surrounding `except (TypeError, ValueError)`), which
we model as `none`.  Returns the raw string, before lowering. -/
def kwFieldOf (o : JObj) : Option String :=
  match jget o "keyword" with
  | none => some ""
  | some (JVal.jstr s) => some s
  | some _ => none

/-- First of two options, mirroring the sequential
`if search_volume is None: search_volume = ...` probing. -/
def firstSome (a b : Option JVal) : Option JVal :=
  match a with
  | some v => some v
  | none => b

/-- The search-volume probe of `process_results` (lines 156-174):
`search_data.monthly_searches`, `search_data.search_volume`,
`search_data.volume` (only when `search_data` is a dict), then the same
three names at the top level of the item.  A key bound to JSON `null`
counts as absent (`dict.get` yields `None`). -/
def probeVolume (o : JObj) : Option JVal :=
  let fromSearchData : Option JVal :=
    match jget o "search_data" with
    | some (JVal.jobj sd) =>
      firstSome (jgetNN sd "monthly_searches")
        (firstSome (jgetNN sd "search_volume") (jgetNN sd "volume"))
    | _ => none
  firstSome fromSearchData
    (firstSome (jgetNN o "monthly_searches")
      (firstSome (jgetNN o "search_volume") (jgetNN o "volume")))

/-- Independent rendering of the spec sentence: the volume field is the
first present value among a fixed ordered list of six probe locations. -/
def probeFields (o : JObj) : List (Option JVal) :=
  let sd : JObj :=
    match jget o "search_data" with
    | some (JVal.jobj inner) => inner
    | _ => []
  [jgetNN sd "monthly_searches", jgetNN sd "search_volume", jgetNN sd "volume",
   jgetNN o "monthly_searches", jgetNN o "search_volume", jgetNN o "volume"]

/-- Spec-side probe: first hit in the ordered probe list. -/
def probeSpec (o : JObj) : Option JVal :=
  (probeFields o).findSome? id

/-- `results_dict[keyword]['search_volume'] = search_volume` (line 180):
overwrite the `search_volume` field of the record stored at key `k`. -/
def setVol : List (String × KeywordRecord) → String → Int →
    List (String × KeywordRecord)
  | [], _, _ => []
  | (k0, r) :: rest, k, n =>
    if k0 = k then (k0, { r with search_volume := n }) :: setVol rest k n
    else (k0, r) :: setVol rest k n

/-- Line 149: `{keyword.lower(): {'keyword': keyword, 'search_volume': 0}
for keyword in original_keywords}`. -/
def initDict (keywords : List String) : List (String × KeywordRecord) :=
  keywords.foldl (fun m k => upsert m (pyLower k) ⟨k, 0⟩) []

/-- One iteration of the `for item in data` loop of `process_results`
(lines 152-190).  `none` models an uncaught exception (`item` not a dict,
or a non-string `keyword` value). -/
def processItem (m : List (String × KeywordRecord)) (it : JVal) :
    Option (List (String × KeywordRecord)) :=
  match it with
  | JVal.jobj o =>
    match kwFieldOf o with
    | none => none
    | some kw0 =>
      let kw := pyLower kw0
      if containsKeyD m kw then
        match probeVolume o with
        | none => some m
        | some v =>
          match pyInt v with
          | none => some m
          | some n => some (setVol m kw n)
      else
        some m
  | _ => none

/-- `process_results(data, original_keywords)` (lines 146-192). -/
def process_results (data : List JVal) (original_keywords : List String) :
    Option (List KeywordRecord) :=
  (data.foldlM processItem (initDict original_keywords)).map
    (fun m => m.map Prod.snd)

/-- The keyword string of an item, as `process_results` reads it
(missing field reads as `""`; non-dict items and non-string keyword
values have no keyword: they raise). -/
def itemKeyword (it : JVal) : Option String :=
  match it with
  | JVal.jobj o => kwFieldOf o
  | _ => none

/-- The last keyword of the list whose lowercasing is `key` (the record
stored under `key` carries this keyword's casing). -/
def lastPick (kws : List String) (key : String) : Option String :=
  match kws with
  | [] => none
  | k :: rest =>
    match lastPick rest key with
    | some r => some r
    | none => if pyLower k = key then some k else none

/-! ## Network model and `get_keyword_ids` (app.py lines 14-59) -/

/-- Outcome of one HTTP GET, as distinguished by the program: a 2xx
response with a JSON body, a non-2xx status code (401, 404, or any other
status that `raise_for_status` turns into an exception), or a transport
error (`requests.exceptions.RequestException`). -/
inductive BatchResp where
  | ok (body : JVal)
  | httpErr (code : Nat)
  | netErr
deriving Repr

/-- One iteration of the map-building loop of `get_keyword_ids` (lines
41-47): non-dict entries are skipped by the `isinstance` check; a
non-string `keyword` value raises on `.lower()` (modelled `none`); the
entry `keyword_map[keyword] = keyword_id` happens only when both the
lowered keyword and the id are truthy (`if keyword and keyword_id`). -/
def idMapStep (m : List (String × JVal)) (it : JVal) :
    Option (List (String × JVal)) :=
  match it with
  | JVal.jobj o =>
    match kwFieldOf o with
    | none => none
    | some kw0 =>
      let kw := pyLower kw0
      match jgetNN o "id" with
      | some v => if kw ≠ "" ∧ jtruthy v then some (upsert m kw v) else some m
      | none => some m
  | _ => some m

/-- The `keyword_map` built by `get_keyword_ids` from the response body
items. -/
def buildKeywordMap (items : List JVal) : Option (List (String × JVal)) :=
  items.foldlM idMapStep []

/-- Lines 50-54: collect `keyword_map.get(keyword.lower())` for each
requested keyword, appending only truthy ids. -/
def collectIds (m : List (String × JVal)) (keywords : List String) :
    List JVal :=
  keywords.foldl
    (fun acc k =>
      match lookupD m (pyLower k) with
      | some idv => if jtruthy idv then acc ++ [idv] else acc
      | none => acc)
    []

/-- `get_keyword_ids` (lines 14-59) as a function of the HTTP response.
Outer `none`: an uncaught exception.  Inner `none`: the function returned
Python `None` (401, 404, or any `RequestException`, including the
`HTTPError` raised by `raise_for_status`, all caught at line 57). -/
def get_keyword_ids (resp : BatchResp) (keywords : List String) :
    Option (Option (List JVal)) :=
  match resp with
  | BatchResp.httpErr _ => some none
  | BatchResp.netErr => some none
  | BatchResp.ok body =>
    let items : List JVal :=
      match body with
      | JVal.jarr l => l
      | _ => []
    match buildKeywordMap items with
    | none => none
    | some m => some (some (collectIds m keywords))

/-! ## `get_keyword_data_batch` and the batch loop (app.py lines 61-144) -/

/-- `get_keyword_data_batch` (lines 61-103) as a function of the HTTP
response: 401 and 404 return `None` explicitly; any other non-2xx status
raises `HTTPError` via `raise_for_status`, which — like a transport
error — is caught by the `except RequestException` clause and also
yields `None`.  A 2xx response returns the parsed JSON body. -/
def get_keyword_data_batch (resp : BatchResp) : Option JVal :=
  match resp with
  | BatchResp.ok body => some body
  | BatchResp.httpErr _ => none
  | BatchResp.netErr => none

/-- The rows one batch request contributes to `all_results` (lines
135-137): `if batch_data and isinstance(batch_data, list):
all_results.extend(batch_data)` — `None`, non-list bodies and the empty
list contribute nothing. -/
def pageRows (resp : BatchResp) : List JVal :=
  match get_keyword_data_batch resp with
  | some (JVal.jarr l) => l
  | _ => []

/-- `total_batches = (len(keyword_ids) + batch_size - 1) // batch_size`
(line 122). -/
def totalBatches (numIds batchSize : Nat) : Nat :=
  (numIds + batchSize - 1) / batchSize

/-- The batch loop (lines 124-141): one request per batch index; returns
the accumulated rows together with the list of batch indices actually
requested. -/
def runBatches (net : Nat → BatchResp) (ids : List JVal) (batchSize : Nat) :
    List JVal × List Nat :=
  (List.range (totalBatches ids.length batchSize)).foldl
    (fun acc i => (acc.1 ++ pageRows (net i), acc.2 ++ [i]))
    ([], [])

/-- `process_keywords_in_batches` (lines 105-144), instrumented with the
list of batch indices requested.  `idResp` is the response to the single
keyword-ID request, `net i` the response to the `i`-th data-batch
request.  `if not keyword_ids: return []` covers both `None` and the
empty list. -/
def process_keywords_in_batches (idResp : BatchResp) (net : Nat → BatchResp)
    (keywords : List String) (batchSize : Nat) :
    Option (List JVal × List Nat) :=
  match get_keyword_ids idResp keywords with
  | none => none
  | some none => some ([], [])
  | some (some ids) =>
    if ids.isEmpty then some ([], [])
    else some (runBatches net ids batchSize)

/-! ## Concrete scenario definitions used by the counterexamples -/

/-- A request list of 101 copies of one keyword: the collected id list
then has length 101, which spans two batches of size 100. -/
def kws101 : List String := List.replicate 101 "a"

/-- Keyword-ID response carrying a single item for keyword `a`. -/
def idRespSingle : BatchResp :=
  BatchResp.ok (JVal.jarr [JVal.jobj [("keyword", JVal.jstr "a"), ("id", JVal.jnum 1)]])

/-- One data row returned by a successful batch request. -/
def rowItem : JVal :=
  JVal.jobj [("keyword", JVal.jstr "a"), ("search_volume", JVal.jnum 10)]

/-- Network oracle: batch 0 succeeds with one row, every later batch
request returns HTTP 401. -/
def netAuthFailAfter0 : Nat → BatchResp :=
  fun i => if i = 0 then BatchResp.ok (JVal.jarr [rowItem]) else BatchResp.httpErr 401

/-- Network oracle: batch 0 fails with a transport error, every later
batch request succeeds with one row. -/
def netErrAt0 : Nat → BatchResp :=
  fun i => if i = 0 then BatchResp.netErr else BatchResp.ok (JVal.jarr [rowItem])

/-- Network oracle: batch 0 returns a single row (fewer than the page
size), every later batch returns an empty page. -/
def netShortPage0 : Nat → BatchResp :=
  fun i => if i = 0 then BatchResp.ok (JVal.jarr [JVal.jnum 7]) else BatchResp.ok (JVal.jarr [])

/-- 201 keyword ids: three batches of size 100. -/
def ids201 : List JVal := List.replicate 201 (JVal.jnum 1)

/-! ## CSV export and re-read (C7) -/

/-- Parser state for the CSV reader. -/
inductive CsvSt where
  | fieldStart
  | unquoted
  | quoted
  | afterQuote

/-- Characters that force quoting in `to_csv` (QUOTE_MINIMAL: delimiter,
quote char, line-terminator characters). -/
def isSpecialChar (c : Char) : Bool :=
  c == ',' || c == '"' || c == '\n' || c == '\r'

/-- Does `to_csv` quote this field? -/
def needsQuote (cs : List Char) : Bool := cs.any isSpecialChar

/-- Double every quote character (CSV quote escaping). -/
def escChars : List Char → List Char
  | [] => []
  | c :: rest => if c = '"' then '"' :: '"' :: escChars rest else c :: escChars rest

/-- One serialized CSV field, quoted exactly when needed. -/
def fieldChars (cs : List Char) : List Char :=
  if needsQuote cs then '"' :: (escChars cs ++ ['"']) else cs

/-- ASCII digit character of `d`. -/
def digitChar (d : Nat) : Char := Char.ofNat (48 + d)

/-- Decimal digits of a natural number. -/
def natChars (n : Nat) : List Char :=
  if n = 0 then ['0'] else ((Nat.digits 10 n).map digitChar).reverse

/-- Decimal rendering of an integer, as `to_csv` writes an int64 cell. -/
def intChars (v : Int) : List Char :=
  if v < 0 then '-' :: natChars v.natAbs else natChars v.toNat

/-- One CSV data row `keyword,search_volume\n`. -/
def rowChars (r : KeywordRecord) : List Char :=
  fieldChars r.keyword.data ++ ',' :: (intChars r.search_volume ++ ['\n'])

/-- The CSV header row written by `results_df.to_csv(index=False)`. -/
def headerChars : List Char :=
  "keyword".data ++ ',' :: ("search_volume".data ++ ['\n'])

/-- Full CSV text of the result table (line 272:
`csv = results_df.to_csv(index=False)`). -/
def writeCsvChars (rows : List KeywordRecord) : List Char :=
  headerChars ++ (rows.map rowChars).flatten

/-- The downloaded CSV as a string. -/
def writeCsv (rows : List KeywordRecord) : String := String.mk (writeCsvChars rows)

/-- Modelled from the spec: re-reading the exported CSV.  The repository
never re-reads its own export, so the reader is a standard RFC-4180-style
CSV scanner: fields separated by commas, rows by newlines, quoted fields
may contain any character with quotes doubled. -/
def csvScan : List Char → CsvSt → List Char → List (List Char) →
    List (List (List Char)) → Option (List (List (List Char)))
  | [], CsvSt.fieldStart, fld, row, acc =>
    if fld.isEmpty && row.isEmpty then some acc else some (acc ++ [row ++ [fld]])
  | [], CsvSt.quoted, _, _, _ => none
  | [], CsvSt.unquoted, fld, row, acc => some (acc ++ [row ++ [fld]])
  | [], CsvSt.afterQuote, fld, row, acc => some (acc ++ [row ++ [fld]])
  | c :: rest, CsvSt.fieldStart, fld, row, acc =>
    if c = '"' then csvScan rest CsvSt.quoted fld row acc
    else if c = ',' then csvScan rest CsvSt.fieldStart [] (row ++ [fld]) acc
    else if c = '\n' then csvScan rest CsvSt.fieldStart [] [] (acc ++ [row ++ [fld]])
    else csvScan rest CsvSt.unquoted (fld ++ [c]) row acc
  | c :: rest, CsvSt.unquoted, fld, row, acc =>
    if c = ',' then csvScan rest CsvSt.fieldStart [] (row ++ [fld]) acc
    else if c = '\n' then csvScan rest CsvSt.fieldStart [] [] (acc ++ [row ++ [fld]])
    else csvScan rest CsvSt.unquoted (fld ++ [c]) row acc
  | c :: rest, CsvSt.quoted, fld, row, acc =>
    if c = '"' then csvScan rest CsvSt.afterQuote fld row acc
    else csvScan rest CsvSt.quoted (fld ++ [c]) row acc
  | c :: rest, CsvSt.afterQuote, fld, row, acc =>
    if c = '"' then csvScan rest CsvSt.quoted (fld ++ ['"']) row acc
    else if c = ',' then csvScan rest CsvSt.fieldStart [] (row ++ [fld]) acc
    else if c = '\n' then csvScan rest CsvSt.fieldStart [] [] (acc ++ [row ++ [fld]])
    else none

/-- Modelled from the spec: parse a decimal natural number cell. -/
def parseNatChars (cs : List Char) : Option Nat :=
  if !cs.isEmpty && cs.all Char.isDigit then
    some (Nat.ofDigits 10 ((cs.map charDigit).reverse))
  else none

/-- Modelled from the spec: parse a decimal integer cell. -/
def parseIntChars (cs : List Char) : Option Int :=
  if cs.head? = some '-' then (parseNatChars cs.tail).map (fun n => -(n : Int))
  else (parseNatChars cs).map (fun n => (n : Int))

/-- Modelled from the spec: one parsed CSV row as a keyword/volume pair. -/
def rowToPair (row : List (List Char)) : Option (String × Int) :=
  match row with
  | [kf, vf] => (parseIntChars vf).map (fun v => (String.mk kf, v))
  | _ => none

/-- Modelled from the spec: the keyword-to-volume mapping read back from
an exported CSV (header row skipped). -/
def readMapping (s : String) : Option (List (String × Int)) :=
  match csvScan s.data CsvSt.fieldStart [] [] [] with
  | none => none
  | some [] => none
  | some (_ :: rows) => rows.mapM rowToPair

/-! ## Counterexamples -/

/-- C1: the claim "process_results returns one KeywordRecord per
requested keyword" is false: for the requested list `["A", "a"]` (two
keywords differing only in case) and empty response data,
`process_results` returns a single record, not two. -/
theorem c1_counterexample :
    process_results [] ["A", "a"] = some [{ keyword := "a", search_volume := 0 }] ∧
    ["A", "a"].length = 2 :=
  ⟨rfl, rfl⟩

/-- C2: the claim "a 401 during a fetch invocation yields no partial
results" is false: with 101 requested ids (two batches), batch 0
succeeds with one row and batch 1 answers HTTP 401, yet the invocation
returns the row fetched in batch 0 (and made both requests). -/
theorem c2_counterexample :
    netAuthFailAfter0 1 = BatchResp.httpErr 401 ∧
    process_keywords_in_batches idRespSingle netAuthFailAfter0 kws101 100 =
      some ([rowItem], [0, 1]) :=
  ⟨rfl, rfl⟩

/-- C3: the claim "the fetch loop terminates exactly when a page returns
fewer rows than the page size (or after a bounded run of empty pages)"
is false: with 201 ids (page size 100), page 0 returns a single row —
fewer than 100 — yet batch requests 1 and 2 are still issued. -/
theorem c3_counterexample :
    pageRows (netShortPage0 0) = [JVal.jnum 7] ∧
    (1 : Nat) < 100 ∧
    (runBatches netShortPage0 ids201 100).2 = [0, 1, 2] :=
  ⟨rfl, by decide, rfl⟩

/-- C4: the claim "a transport error on a page request aborts the fetch:
no further page requests are made" is false: with 101 requested ids,
batch 0 fails with a transport error, yet batch request 1 is still made
and its row is returned. -/
theorem c4_counterexample :
    netErrAt0 0 = BatchResp.netErr ∧
    process_keywords_in_batches idRespSingle netErrAt0 kws101 100 =
      some ([rowItem], [0, 1]) :=
  ⟨rfl, rfl⟩

/-- C6: the claim "if the probed value is missing or not coercible to an
integer, the record's search_volume is 0" is false: with two items
matching keyword `a`, the first carrying volume 5 and the second a
non-coercible volume `"x"`, the record keeps 5 (the failed coercion is
silently skipped), not 0. -/
theorem c6_counterexample :
    pyInt (JVal.jstr "x") = none ∧
    process_results
      [JVal.jobj [("keyword", JVal.jstr "a"), ("volume", JVal.jnum 5)],
       JVal.jobj [("keyword", JVal.jstr "a"), ("volume", JVal.jstr "x")]] ["a"] =
      some [{ keyword := "a", search_volume := 5 }] :=
  ⟨rfl, rfl⟩

/-- C8: the claim "every record satisfies search_volume ≥ 0, for every
API response including negative numeric volumes" is false: a response
item with volume −5 produces a record with search_volume = −5 < 0. -/
theorem c8_counterexample :
    process_results [JVal.jobj [("keyword", JVal.jstr "a"), ("volume", JVal.jnum (-5))]]
      ["a"] = some [{ keyword := "a", search_volume := -5 }] ∧
    (-5 : Int) < 0 :=
  ⟨rfl, by decide⟩

/-! ## Dictionary lemmas -/

theorem lookupD_upsert {α : Type} (m : List (String × α)) (k k' : String) (v : α) :
    lookupD (upsert m k v) k' = if k = k' then some v else lookupD m k' := by
  induction m with
  | nil => simp [upsert, lookupD]
  | cons p rest ih =>
    obtain ⟨k0, v0⟩ := p
    simp only [upsert, lookupD]
    split_ifs with h0 h1 <;> simp_all [lookupD]

theorem keysD_setVol (m : List (String × KeywordRecord)) (k : String) (n : Int) :
    keysD (setVol m k n) = keysD m := by
  induction m with
  | nil => rfl
  | cons p rest ih =>
    obtain ⟨k0, v0⟩ := p
    simp only [setVol]
    split_ifs <;> simp_all [keysD]

theorem lookupD_setVol (m : List (String × KeywordRecord)) (k : String) (n : Int)
    (key : String) :
    lookupD (setVol m k n) key =
      if key = k then (lookupD m key).map (fun r => { r with search_volume := n })
      else lookupD m key := by
  induction m with
  | nil => simp [setVol, lookupD]
  | cons p rest ih =>
    obtain ⟨k0, v0⟩ := p
    simp only [setVol]
    split_ifs with h0 <;> simp only [lookupD] <;>
      split_ifs with h1 <;> simp_all

theorem lookupD_isSome_iff_mem {α : Type} (m : List (String × α)) (k : String) :
    (lookupD m k).isSome ↔ k ∈ keysD m := by
  induction m with
  | nil => simp [lookupD, keysD]
  | cons p rest ih =>
    obtain ⟨k0, v0⟩ := p
    simp only [lookupD, keysD, List.map_cons, List.mem_cons]
    split_ifs with h0
    · subst h0; simp
    · simp only [keysD] at ih
      rw [ih]
      constructor
      · exact fun h => Or.inr h
      · rintro (h | h)
        · exact absurd h.symm h0
        · exact h

theorem lookupD_mem_values {α : Type} (m : List (String × α)) (k : String) (v : α)
    (h : lookupD m k = some v) : v ∈ m.map Prod.snd := by
  induction m with
  | nil => simp [lookupD] at h
  | cons p rest ih =>
    obtain ⟨k0, v0⟩ := p
    simp only [lookupD] at h
    split_ifs at h with h0
    · simp_all
    · simp [ih h]

theorem keysD_upsert {α : Type} (m : List (String × α)) (k : String) (v : α) :
    keysD (upsert m k v) = if k ∈ keysD m then keysD m else keysD m ++ [k] := by
  induction m with
  | nil => simp [upsert, keysD]
  | cons p rest ih =>
    obtain ⟨k0, v0⟩ := p
    simp only [upsert, keysD]
    split_ifs with h0 h1 <;> simp_all [keysD, eq_comm]

theorem nodup_keysD_upsert {α : Type} (m : List (String × α)) (k : String) (v : α)
    (h : (keysD m).Nodup) : (keysD (upsert m k v)).Nodup := by
  rw [keysD_upsert]
  split_ifs with h0
  · exact h
  · simpa [List.nodup_append] using ⟨h, h0⟩

/-! ## Lemmas about `lastPick` and `initDict` -/

theorem lastPick_isSome_iff (kws : List String) (key : String) :
    (lastPick kws key).isSome ↔ ∃ k ∈ kws, pyLower k = key := by
  induction kws with
  | nil => simp [lastPick]
  | cons k rest ih =>
    simp only [lastPick, List.mem_cons]
    cases h : lastPick rest key with
    | some r =>
      simp only [Option.isSome_some, true_iff]
      rcases ih.mp (by simp [h]) with ⟨k0, hk0, hl⟩
      exact ⟨k0, Or.inr hk0, hl⟩
    | none =>
      rw [h] at ih
      simp only [Option.isSome_none, Bool.false_eq_true, false_iff, not_exists,
        not_and] at ih
      split_ifs with h1
      · simp only [Option.isSome_some, true_iff]
        exact ⟨k, Or.inl rfl, h1⟩
      · simp only [Option.isSome_none, Bool.false_eq_true, false_iff]
        rintro ⟨k0, h2 | h2, hl⟩
        · subst h2; exact h1 hl
        · exact ih k0 h2 hl

theorem lastPick_sound (kws : List String) (key r : String)
    (h : lastPick kws key = some r) : r ∈ kws ∧ pyLower r = key := by
  induction kws with
  | nil => simp [lastPick] at h
  | cons k rest ih =>
    simp only [lastPick] at h
    cases h0 : lastPick rest key with
    | some r0 =>
      rw [h0] at h
      obtain rfl : r0 = r := by simpa using h
      rcases ih h0 with ⟨h1, h2⟩
      exact ⟨by simp [h1], h2⟩
    | none =>
      rw [h0] at h
      split_ifs at h with h1
      · obtain rfl : k = r := by simpa using h
        exact ⟨by simp, h1⟩

theorem lookupD_initFold (kws : List String) (m : List (String × KeywordRecord))
    (key : String) :
    lookupD (kws.foldl (fun m k => upsert m (pyLower k) ⟨k, 0⟩) m) key =
      match lastPick kws key with
      | some kw => some ⟨kw, 0⟩
      | none => lookupD m key := by
  induction kws generalizing m with
  | nil => simp [lastPick]
  | cons k rest ih =>
    simp only [List.foldl_cons, lastPick]
    rw [ih]
    cases h0 : lastPick rest key with
    | some r => simp
    | none =>
      simp only []
      rw [lookupD_upsert]
      split_ifs with h1 <;> simp_all

theorem lookupD_initDict (kws : List String) (key : String) :
    lookupD (initDict kws) key = (lastPick kws key).map (fun kw => (⟨kw, 0⟩ : KeywordRecord)) := by
  rw [initDict, lookupD_initFold]
  cases lastPick kws key <;> simp [lookupD]

theorem keysD_initDict_nodup (kws : List String) : (keysD (initDict kws)).Nodup := by
  rw [initDict]
  generalize hm : ([] : List (String × KeywordRecord)) = m
  have hnd : (keysD m).Nodup := by rw [← hm]; simp [keysD]
  clear hm
  induction kws generalizing m with
  | nil => simpa using hnd
  | cons k rest ih => exact ih _ (nodup_keysD_upsert _ _ _ hnd)

theorem mem_keysD_initDict (kws : List String) (key : String) :
    key ∈ keysD (initDict kws) ↔ ∃ k ∈ kws, pyLower k = key := by
  rw [← lookupD_isSome_iff_mem, lookupD_initDict, ← lastPick_isSome_iff]
  cases lastPick kws key <;> simp

theorem length_initDict (kws : List String) :
    (initDict kws).length = ((kws.map pyLower).dedup).length := by
  have h1 : (initDict kws).length = (keysD (initDict kws)).length := by
    simp [keysD]
  rw [h1, ← List.card_toFinset ((kws.map pyLower))]
  rw [← List.toFinset_card_of_nodup (keysD_initDict_nodup kws)]
  congr 1
  ext x
  simp [mem_keysD_initDict, List.mem_map, eq_comm]

/-! ## Step lemmas for `processItem` -/

theorem processItem_cases (m : List (String × KeywordRecord)) (it : JVal)
    (m₁ : List (String × KeywordRecord)) (h : processItem m it = some m₁) :
    m₁ = m ∨ ∃ o kw0 v n, it = JVal.jobj o ∧ kwFieldOf o = some kw0 ∧
      containsKeyD m (pyLower kw0) = true ∧ probeVolume o = some v ∧
      pyInt v = some n ∧ m₁ = setVol m (pyLower kw0) n := by
  cases it with
  | null => simp [processItem] at h
  | jbool b => simp [processItem] at h
  | jnum n => simp [processItem] at h
  | jstr s => simp [processItem] at h
  | jarr l => simp [processItem] at h
  | jobj o =>
    simp only [processItem] at h
    split at h
    · cases h
    · rename_i kw0 hkw
      split at h
      · rename_i hc
        split at h
        · left; exact (Option.some.inj h).symm
        · rename_i v hv
          split at h
          · left; exact (Option.some.inj h).symm
          · rename_i n hn
            right
            exact ⟨o, kw0, v, n, rfl, hkw, hc, hv, hn, (Option.some.inj h).symm⟩
      · left; exact (Option.some.inj h).symm

theorem setVol_mem (m : List (String × KeywordRecord)) (k : String) (n : Int)
    (p : String × KeywordRecord) (hp : p ∈ setVol m k n) :
    p ∈ m ∨ p.2.search_volume = n := by
  induction m with
  | nil => simp [setVol] at hp
  | cons q rest ih =>
    obtain ⟨k0, r⟩ := q
    simp only [setVol] at hp
    split_ifs at hp with h0 <;> rcases List.mem_cons.mp hp with h1 | h1
    · subst h1; right; rfl
    · rcases ih h1 with h2 | h2
      · left; exact List.mem_cons_of_mem _ h2
      · right; exact h2
    · subst h1; left; exact List.mem_cons_self _ _
    · rcases ih h1 with h2 | h2
      · left; exact List.mem_cons_of_mem _ h2
      · right; exact h2

theorem processItem_keysD (m m₁ : List (String × KeywordRecord)) (it : JVal)
    (h : processItem m it = some m₁) : keysD m₁ = keysD m := by
  rcases processItem_cases m it m₁ h with h1 | ⟨o, kw0, v, n, _, _, _, _, _, h1⟩
  · rw [h1]
  · rw [h1, keysD_setVol]

theorem processItem_untouched (m m₁ : List (String × KeywordRecord)) (it : JVal)
    (key : String) (h : processItem m it = some m₁)
    (hne : ∀ s, itemKeyword it = some s → pyLower s ≠ key) :
    lookupD m₁ key = lookupD m key := by
  rcases processItem_cases m it m₁ h with h1 | ⟨o, kw0, v, n, hit, hkw, _, _, _, h1⟩
  · rw [h1]
  · rw [h1, lookupD_setVol]
    have : pyLower kw0 ≠ key := hne kw0 (by rw [hit, itemKeyword, hkw])
    rw [if_neg (fun hk => this hk.symm)]

theorem processItem_kwfield (m m₁ : List (String × KeywordRecord)) (it : JVal)
    (h : processItem m it = some m₁) (key : String) :
    (lookupD m₁ key).map KeywordRecord.keyword =
      (lookupD m key).map KeywordRecord.keyword := by
  rcases processItem_cases m it m₁ h with h1 | ⟨o, kw0, v, n, _, _, _, _, _, h1⟩
  · rw [h1]
  · rw [h1, lookupD_setVol]
    split_ifs with h2
    · cases lookupD m key <;> simp
    · rfl

theorem processItem_nonneg (m m₁ : List (String × KeywordRecord)) (it : JVal)
    (h : processItem m it = some m₁)
    (hitem : ∀ o, it = JVal.jobj o → ∀ v n, probeVolume o = some v →
      pyInt v = some n → 0 ≤ n)
    (hm : ∀ p ∈ m, 0 ≤ p.2.search_volume) : ∀ p ∈ m₁, 0 ≤ p.2.search_volume := by
  rcases processItem_cases m it m₁ h with h1 | ⟨o, kw0, v, n, hit, _, _, hv, hn, h1⟩
  · rw [h1]; exact hm
  · subst h1
    intro p hp
    rcases setVol_mem _ _ _ p hp with h2 | h2
    · exact hm p h2
    · rw [h2]; exact hitem o hit v n hv hn

/-! ## Fold lemmas for the item loop of `process_results` -/

theorem foldlM_keysD (data : List JVal) (m m₁ : List (String × KeywordRecord))
    (h : data.foldlM processItem m = some m₁) : keysD m₁ = keysD m := by
  induction data generalizing m with
  | nil => simp only [List.foldlM_nil] at h; rw [Option.pure_def] at h; cases h; rfl
  | cons it rest ih =>
    rw [List.foldlM_cons] at h
    cases hstep : processItem m it with
    | none => rw [hstep] at h; cases h
    | some m' =>
      rw [hstep] at h
      simp only [Option.bind_eq_bind, Option.some_bind] at h
      rw [ih m' h, processItem_keysD m m' it hstep]

theorem foldlM_untouched (data : List JVal) (m m₁ : List (String × KeywordRecord))
    (key : String) (h : data.foldlM processItem m = some m₁)
    (hne : ∀ it ∈ data, ∀ s, itemKeyword it = some s → pyLower s ≠ key) :
    lookupD m₁ key = lookupD m key := by
  induction data generalizing m with
  | nil => simp only [List.foldlM_nil] at h; rw [Option.pure_def] at h; cases h; rfl
  | cons it rest ih =>
    rw [List.foldlM_cons] at h
    cases hstep : processItem m it with
    | none => rw [hstep] at h; cases h
    | some m' =>
      rw [hstep] at h
      simp only [Option.bind_eq_bind, Option.some_bind] at h
      rw [ih m' h (fun it2 h2 => hne it2 (List.mem_cons_of_mem _ h2))]
      exact processItem_untouched m m' it key hstep
        (hne it (List.mem_cons_self _ _))

theorem foldlM_kwfield (data : List JVal) (m m₁ : List (String × KeywordRecord))
    (h : data.foldlM processItem m = some m₁) (key : String) :
    (lookupD m₁ key).map KeywordRecord.keyword =
      (lookupD m key).map KeywordRecord.keyword := by
  induction data generalizing m with
  | nil => simp only [List.foldlM_nil] at h; rw [Option.pure_def] at h; cases h; rfl
  | cons it rest ih =>
    rw [List.foldlM_cons] at h
    cases hstep : processItem m it with
    | none => rw [hstep] at h; cases h
    | some m' =>
      rw [hstep] at h
      simp only [Option.bind_eq_bind, Option.some_bind] at h
      rw [ih m' h, processItem_kwfield m m' it hstep key]

theorem foldlM_nonneg (data : List JVal) (m m₁ : List (String × KeywordRecord))
    (h : data.foldlM processItem m = some m₁)
    (hdata : ∀ it ∈ data, ∀ o, it = JVal.jobj o → ∀ v n, probeVolume o = some v →
      pyInt v = some n → 0 ≤ n)
    (hm : ∀ p ∈ m, 0 ≤ p.2.search_volume) : ∀ p ∈ m₁, 0 ≤ p.2.search_volume := by
  induction data generalizing m with
  | nil => simp only [List.foldlM_nil] at h; rw [Option.pure_def] at h; cases h; exact hm
  | cons it rest ih =>
    rw [List.foldlM_cons] at h
    cases hstep : processItem m it with
    | none => rw [hstep] at h; cases h
    | some m' =>
      rw [hstep] at h
      simp only [Option.bind_eq_bind, Option.some_bind] at h
      exact ih m' h (fun it2 h2 => hdata it2 (List.mem_cons_of_mem _ h2))
        (processItem_nonneg m m' it hstep (hdata it (List.mem_cons_self _ _)) hm)

/-! ## Structure of `runBatches` and membership in `initDict` -/

theorem runBatches_eq (net : Nat → BatchResp) (ids : List JVal) (bs : Nat) :
    runBatches net ids bs =
      (((List.range (totalBatches ids.length bs)).map (fun i => pageRows (net i))).flatten,
        List.range (totalBatches ids.length bs)) := by
  rw [runBatches]
  generalize (List.range (totalBatches ids.length bs)) = l
  suffices hgen : ∀ (l : List Nat) (acc : List JVal × List Nat),
      l.foldl (fun acc i => (acc.1 ++ pageRows (net i), acc.2 ++ [i])) acc =
        (acc.1 ++ (l.map (fun i => pageRows (net i))).flatten, acc.2 ++ l) by
    simpa using hgen l ([], [])
  intro l
  induction l with
  | nil => intro acc; simp
  | cons i rest ih => intro acc; simp [ih]

theorem upsert_mem {α : Type} (m : List (String × α)) (k : String) (v : α)
    (p : String × α) (hp : p ∈ upsert m k v) : p ∈ m ∨ p = (k, v) := by
  induction m with
  | nil => simp [upsert] at hp; simp [hp]
  | cons q rest ih =>
    obtain ⟨k0, v0⟩ := q
    simp only [upsert] at hp
    split_ifs at hp with h0 <;> rcases List.mem_cons.mp hp with h1 | h1
    · right; exact h1
    · left; exact List.mem_cons_of_mem _ h1
    · left; rw [h1]; exact List.mem_cons_self _ _
    · rcases ih h1 with h2 | h2
      · left; exact List.mem_cons_of_mem _ h2
      · right; exact h2

theorem initDict_vol_zero (kws : List String) :
    ∀ p ∈ initDict kws, p.2.search_volume = 0 := by
  rw [initDict]
  suffices hgen : ∀ (kws : List String) (m : List (String × KeywordRecord)),
      (∀ p ∈ m, p.2.search_volume = 0) →
      ∀ p ∈ kws.foldl (fun m k => upsert m (pyLower k) ⟨k, 0⟩) m,
        p.2.search_volume = 0 by
    exact hgen kws [] (by simp)
  intro kws2
  induction kws2 with
  | nil => intro m hm; simpa using hm
  | cons k rest ih =>
    intro m hm
    simp only [List.foldl_cons]
    refine ih _ (fun p hp => ?_)
    rcases upsert_mem m (pyLower k) ⟨k, 0⟩ p hp with h1 | h1
    · exact hm p h1
    · rw [h1]

/-- Extract the final dict from a successful run of `process_results`. -/
theorem process_results_elim (data : List JVal) (kws : List String)
    (rs : List KeywordRecord) (h : process_results data kws = some rs) :
    ∃ m, data.foldlM processItem (initDict kws) = some m ∧ rs = m.map Prod.snd := by
  unfold process_results at h
  cases hf : data.foldlM processItem (initDict kws) with
  | none => rw [hf] at h; cases h
  | some m =>
    rw [hf] at h
    exact ⟨m, rfl, (Option.some.inj h).symm⟩

/-- C9: `process_results` returns exactly one record per distinct lowercased
requested keyword (case-duplicates collapse, so the output can be shorter
than the input list), and the record stored for a keyword carries the
casing of the last duplicate in the input list. -/
theorem c9_one_record_per_distinct_lowercased_keyword (data : List JVal)
    (kws : List String) (rs : List KeywordRecord)
    (h : process_results data kws = some rs) :
    rs.length = ((kws.map pyLower).dedup).length ∧
    ∀ k ∈ kws, ∃ r ∈ rs, lastPick kws (pyLower k) = some r.keyword ∧
      pyLower r.keyword = pyLower k := by
  obtain ⟨m, hm, rfl⟩ := process_results_elim data kws rs h
  constructor
  · have h2 : m.length = (keysD m).length := by simp [keysD]
    have h3 : keysD m = keysD (initDict kws) := foldlM_keysD data _ m hm
    have h4 : (keysD (initDict kws)).length = (initDict kws).length := by simp [keysD]
    rw [List.length_map, h2, h3, h4, length_initDict]
  · intro k hk
    have hsome : (lastPick kws (pyLower k)).isSome :=
      (lastPick_isSome_iff kws (pyLower k)).mpr ⟨k, hk, rfl⟩
    obtain ⟨kw0, hkw0⟩ := Option.isSome_iff_exists.mp hsome
    have hinit : lookupD (initDict kws) (pyLower k) = some ⟨kw0, 0⟩ := by
      rw [lookupD_initDict, hkw0]; rfl
    have hfield := foldlM_kwfield data _ m hm (pyLower k)
    rw [hinit] at hfield
    cases hlm : lookupD m (pyLower k) with
    | none => rw [hlm] at hfield; cases hfield
    | some r =>
      rw [hlm] at hfield
      have hrk : r.keyword = kw0 := by simpa using hfield
      refine ⟨r, lookupD_mem_values m _ r hlm, ?_, ?_⟩
      · rw [hrk]; exact hkw0
      · rw [hrk]; exact (lastPick_sound kws (pyLower k) kw0 hkw0).2

/-- C9 witness: instantiation at data `[]` and keywords `["A", "a"]`,
which collapse to the single record `{keyword := "a", search_volume := 0}`. -/
theorem c9_witness :
    ([({ keyword := "a", search_volume := 0 } : KeywordRecord)]).length =
      (((["A", "a"]).map pyLower).dedup).length ∧
    ∀ k ∈ ["A", "a"], ∃ r ∈ [({ keyword := "a", search_volume := 0 } : KeywordRecord)],
      lastPick ["A", "a"] (pyLower k) = some r.keyword ∧
        pyLower r.keyword = pyLower k :=
  c9_one_record_per_distinct_lowercased_keyword [] ["A", "a"] _ rfl

/-- C1 (amended): `process_results` returns one KeywordRecord per distinct
lowercased requested keyword (not one per requested keyword: case-duplicates
collapse into a single record), and every requested keyword that does not
appear case-insensitively in any item of the response data has a record,
matching it case-insensitively, with search_volume = 0. -/
theorem c1_amended_distinct_lowercased_and_zero_defaults (data : List JVal)
    (kws : List String) (rs : List KeywordRecord)
    (h : process_results data kws = some rs) :
    rs.length = ((kws.map pyLower).dedup).length ∧
    ∀ k ∈ kws,
      (∀ it ∈ data, ∀ s, itemKeyword it = some s → pyLower s ≠ pyLower k) →
      ∃ r ∈ rs, pyLower r.keyword = pyLower k ∧ r.search_volume = 0 := by
  obtain ⟨m, hm, rfl⟩ := process_results_elim data kws rs h
  constructor
  · have h2 : m.length = (keysD m).length := by simp [keysD]
    have h3 : keysD m = keysD (initDict kws) := foldlM_keysD data _ m hm
    have h4 : (keysD (initDict kws)).length = (initDict kws).length := by simp [keysD]
    rw [List.length_map, h2, h3, h4, length_initDict]
  · intro k hk hne
    have hsome : (lastPick kws (pyLower k)).isSome :=
      (lastPick_isSome_iff kws (pyLower k)).mpr ⟨k, hk, rfl⟩
    obtain ⟨kw0, hkw0⟩ := Option.isSome_iff_exists.mp hsome
    have hinit : lookupD (initDict kws) (pyLower k) = some ⟨kw0, 0⟩ := by
      rw [lookupD_initDict, hkw0]; rfl
    have huntouched := foldlM_untouched data _ m (pyLower k) hm hne
    rw [hinit] at huntouched
    refine ⟨⟨kw0, 0⟩, lookupD_mem_values m _ _ huntouched, ?_, rfl⟩
    exact (lastPick_sound kws (pyLower k) kw0 hkw0).2

/-- C1 witness: instantiation at data `[]` and keywords `["B"]`. -/
theorem c1_amended_witness :
    ([({ keyword := "B", search_volume := 0 } : KeywordRecord)]).length =
      (((["B"]).map pyLower).dedup).length ∧
    ∃ r ∈ [({ keyword := "B", search_volume := 0 } : KeywordRecord)],
      pyLower r.keyword = pyLower "B" ∧ r.search_volume = 0 := by
  have h := c1_amended_distinct_lowercased_and_zero_defaults [] ["B"] _ rfl
  exact ⟨h.1, h.2 "B" (by simp) (by intro it hit; simp at hit)⟩

/-- C8 (amended): every KeywordRecord produced by `process_results`
satisfies search_volume ≥ 0 provided every volume value extracted from the
response data coerces to a non-negative integer; a negative numeric volume
in the response is stored as-is (see the counterexample), so the invariant
holds only under this hypothesis on the data. -/
theorem c8_amended_nonneg_when_inputs_nonneg (data : List JVal) (kws : List String)
    (rs : List KeywordRecord)
    (hdata : ∀ it ∈ data, ∀ o, it = JVal.jobj o → ∀ v n, probeVolume o = some v →
      pyInt v = some n → 0 ≤ n)
    (h : process_results data kws = some rs) :
    ∀ r ∈ rs, 0 ≤ r.search_volume := by
  obtain ⟨m, hm, rfl⟩ := process_results_elim data kws rs h
  intro r hr
  rcases List.mem_map.mp hr with ⟨p, hp, rfl⟩
  refine foldlM_nonneg data _ m hm hdata ?_ p hp
  intro q hq
  rw [initDict_vol_zero kws q hq]

/-- C8 witness: instantiation at a one-item response with volume 5. -/
theorem c8_amended_witness :
    (0 : Int) ≤ ({ keyword := "a", search_volume := 5 } : KeywordRecord).search_volume := by
  refine c8_amended_nonneg_when_inputs_nonneg
    [JVal.jobj [("keyword", JVal.jstr "a"), ("volume", JVal.jnum 5)]] ["a"]
    [{ keyword := "a", search_volume := 5 }] ?_ rfl
    { keyword := "a", search_volume := 5 } (List.mem_singleton_self _)
  intro it hit o heq v n hv hn
  rw [List.mem_singleton] at hit
  subst hit
  injection heq with h2
  subst h2
  rw [show probeVolume [("keyword", JVal.jstr "a"), ("volume", JVal.jnum 5)] =
    some (JVal.jnum 5) from rfl] at hv
  obtain rfl : JVal.jnum 5 = v := Option.some.inj hv
  obtain rfl : (5 : Int) = n := Option.some.inj hn
  omega

/-- C10: if the keyword-ID lookup yields no IDs (`None` after an HTTP or
network failure, or an empty list), `process_keywords_in_batches` returns
the empty list having issued no data-batch request; and `process_results`
applied to the empty data list still returns, for every requested keyword,
a case-insensitively matching record with search_volume = 0 (all records
are zero). -/
theorem c10_no_ids_yields_empty_and_zero_records :
    (∀ idResp net kws bs,
      (get_keyword_ids idResp kws = some none ∨
       get_keyword_ids idResp kws = some (some ([] : List JVal))) →
      process_keywords_in_batches idResp net kws bs = some ([], [])) ∧
    (∀ kws rs, process_results [] kws = some rs →
      (∀ r ∈ rs, r.search_volume = 0) ∧
      ∀ k ∈ kws, ∃ r ∈ rs, pyLower r.keyword = pyLower k ∧ r.search_volume = 0) := by
  constructor
  · intro idResp net kws bs hids
    unfold process_keywords_in_batches
    rcases hids with h | h <;> simp [h]
  · intro kws rs h
    obtain ⟨m, hm, rfl⟩ := process_results_elim [] kws rs h
    have hm0 : m = initDict kws := by
      simp only [List.foldlM_nil] at hm
      exact (Option.some.inj hm).symm
    subst hm0
    constructor
    · intro r hr
      rcases List.mem_map.mp hr with ⟨p, hp, rfl⟩
      exact initDict_vol_zero kws p hp
    · intro k hk
      have hsome : (lastPick kws (pyLower k)).isSome :=
        (lastPick_isSome_iff kws (pyLower k)).mpr ⟨k, hk, rfl⟩
      obtain ⟨kw0, hkw0⟩ := Option.isSome_iff_exists.mp hsome
      have hinit : lookupD (initDict kws) (pyLower k) = some ⟨kw0, 0⟩ := by
        rw [lookupD_initDict, hkw0]; rfl
      refine ⟨⟨kw0, 0⟩, lookupD_mem_values _ _ _ hinit, ?_, rfl⟩
      exact (lastPick_sound kws (pyLower k) kw0 hkw0).2

/-- C10 witness: instantiation at a 404 ID response and keywords
`["A", "b"]`. -/
theorem c10_witness :
    process_keywords_in_batches (BatchResp.httpErr 404) (fun _ => BatchResp.netErr)
      ["A", "b"] 100 = some ([], []) ∧
    ∀ r ∈ [({ keyword := "A", search_volume := 0 } : KeywordRecord),
           { keyword := "b", search_volume := 0 }], r.search_volume = 0 :=
  ⟨c10_no_ids_yields_empty_and_zero_records.1 (BatchResp.httpErr 404) _ ["A", "b"] 100
    (Or.inl rfl),
   (c10_no_ids_yields_empty_and_zero_records.2 ["A", "b"] _ rfl).1⟩

/-- C2 (amended): a 401 on the keyword-ID request yields an authentication
failure and no results at all (empty result, no batch requests).  A 401 on
a data-batch request, however, only drops that batch: the page contributes
no rows, but rows already fetched from other batches are kept and returned
(the invocation result is exactly the concatenation of the per-page rows). -/
theorem c2_amended_auth_failure_semantics :
    (∀ net kws bs, process_keywords_in_batches (BatchResp.httpErr 401) net kws bs =
      some ([], [])) ∧
    pageRows (BatchResp.httpErr 401) = [] ∧
    (∀ net ids bs, (runBatches net ids bs).1 =
      ((List.range (totalBatches ids.length bs)).map (fun i => pageRows (net i))).flatten) := by
  refine ⟨fun net kws bs => rfl, rfl, fun net ids bs => ?_⟩
  rw [runBatches_eq]

/-- C3 (amended): the fetch loop issues exactly one request per fixed-size
batch of keyword IDs — the requests made are exactly the batch indices
`0, …, ⌈n/batchSize⌉ - 1` — and terminates after the last batch regardless
of the responses: there is no early termination on short or empty pages. -/
theorem c3_amended_one_request_per_batch :
    ∀ (net : Nat → BatchResp) (ids : List JVal) (bs : Nat),
      (runBatches net ids bs).2 = List.range (totalBatches ids.length bs) := by
  intro net ids bs
  rw [runBatches_eq]

/-- C4 (amended): a transport error on the keyword-ID request aborts the
invocation (empty result, no batch requests).  A transport error on a
data-batch request is reported and that batch contributes no rows, but the
fetch is not aborted: every remaining batch request is still made. -/
theorem c4_amended_network_error_semantics :
    (∀ net kws bs, process_keywords_in_batches BatchResp.netErr net kws bs =
      some ([], [])) ∧
    pageRows BatchResp.netErr = [] ∧
    (∀ net ids bs, (runBatches net ids bs).2 =
      List.range (totalBatches ids.length bs)) := by
  refine ⟨fun net kws bs => rfl, rfl, fun net ids bs => ?_⟩
  rw [runBatches_eq]

/-! ## Lemmas for `get_keyword_ids` matching (C5) -/

theorem pyLower_ne_empty (s : String) (h : s ≠ "") : pyLower s ≠ "" := by
  intro hc
  apply h
  cases s with
  | mk data =>
    cases data with
    | nil => rfl
    | cons c cs => simp [pyLower, String.ext_iff] at hc

theorem idMapStep_eq (m0 : List (String × JVal)) (o : JObj) (s : String) (v : JVal)
    (hs : jget o "keyword" = some (JVal.jstr s)) (hs0 : s ≠ "")
    (hv : jgetNN o "id" = some v) (hvt : jtruthy v = true) :
    idMapStep m0 (JVal.jobj o) = some (upsert m0 (pyLower s) v) := by
  have hkw : kwFieldOf o = some s := by unfold kwFieldOf; rw [hs]
  simp only [idMapStep, hkw, hv]
  rw [if_pos ⟨pyLower_ne_empty s hs0, hvt⟩]

theorem idMapStep_non_jobj (m0 : List (String × JVal)) (it : JVal)
    (hno : ∀ o, it ≠ JVal.jobj o) : idMapStep m0 it = some m0 := by
  cases it <;> first | rfl | exact absurd rfl (hno _)

theorem idfold_lookup (data : List JVal) (m0 m : List (String × JVal))
    (h : data.foldlM idMapStep m0 = some m)
    (hwf : ∀ it ∈ data, ∀ o, it = JVal.jobj o →
      (∃ s, jget o "keyword" = some (JVal.jstr s) ∧ s ≠ "") ∧
      (∃ v, jgetNN o "id" = some v ∧ jtruthy v = true))
    (key : String) :
    (lookupD m key).isSome ↔ ((lookupD m0 key).isSome ∨
      ∃ it ∈ data, ∃ o s, it = JVal.jobj o ∧
        jget o "keyword" = some (JVal.jstr s) ∧ pyLower s = key) := by
  induction data generalizing m0 with
  | nil =>
    simp only [List.foldlM_nil] at h
    rw [Option.pure_def] at h
    cases h
    simp
  | cons it rest ih =>
    rw [List.foldlM_cons] at h
    by_cases hobj : ∃ o, it = JVal.jobj o
    · obtain ⟨o, rfl⟩ := hobj
      obtain ⟨⟨s, hs, hs0⟩, v, hv, hvt⟩ :=
        hwf (JVal.jobj o) (List.mem_cons_self _ _) o rfl
      rw [idMapStep_eq m0 o s v hs hs0 hv hvt] at h
      simp only [Option.bind_eq_bind, Option.some_bind] at h
      rw [ih _ h (fun it2 h2 => hwf it2 (List.mem_cons_of_mem _ h2))]
      rw [lookupD_upsert]
      split_ifs with h1
      · constructor
        · intro _
          exact Or.inr ⟨JVal.jobj o, List.mem_cons_self _ _, o, s, rfl, hs, h1⟩
        · intro _
          simp
      · constructor
        · rintro (h2 | ⟨it2, h3, hP⟩)
          · exact Or.inl h2
          · exact Or.inr ⟨it2, List.mem_cons_of_mem _ h3, hP⟩
        · rintro (h2 | ⟨it2, h3, o2, s2, heq, hg, hl⟩)
          · exact Or.inl h2
          · rcases List.mem_cons.mp h3 with h4 | h4
            · subst h4
              injection heq with h5
              subst h5
              rw [hs] at hg
              injection hg with h6
              injection h6 with h7
              exact absurd (h7 ▸ hl) h1
            · exact Or.inr ⟨it2, h4, o2, s2, heq, hg, hl⟩
    · have hstep : idMapStep m0 it = some m0 :=
        idMapStep_non_jobj m0 it (fun o ho => hobj ⟨o, ho⟩)
      rw [hstep] at h
      simp only [Option.bind_eq_bind, Option.some_bind] at h
      rw [ih m0 h (fun it2 h2 => hwf it2 (List.mem_cons_of_mem _ h2))]
      constructor
      · rintro (h1 | ⟨it2, h2, hP⟩)
        · exact Or.inl h1
        · exact Or.inr ⟨it2, List.mem_cons_of_mem _ h2, hP⟩
      · rintro (h1 | ⟨it2, h2, o, s, heq, hg, hl⟩)
        · exact Or.inl h1
        · rcases List.mem_cons.mp h2 with h3 | h3
          · exact absurd ⟨o, h3 ▸ heq⟩ hobj
          · exact Or.inr ⟨it2, h3, o, s, heq, hg, hl⟩

/-- C5: keyword matching is case-insensitive in both steps.  In
`process_results`, an item keyword hits the results dict exactly when some
requested keyword is lowercase-equal to it.  In `get_keyword_ids`, for
well-formed response items (non-empty string keyword, truthy id), a
requested keyword is assigned an id exactly when some response item has a
lowercase-equal keyword. -/
theorem c5_case_insensitive_matching :
    (∀ (kws : List String) (s : String),
      containsKeyD (initDict kws) (pyLower s) = true ↔
        ∃ k ∈ kws, pyLower k = pyLower s) ∧
    (∀ (data : List JVal) (m : List (String × JVal)) (k : String),
      buildKeywordMap data = some m →
      (∀ it ∈ data, ∀ o, it = JVal.jobj o →
        (∃ s, jget o "keyword" = some (JVal.jstr s) ∧ s ≠ "") ∧
        (∃ v, jgetNN o "id" = some v ∧ jtruthy v = true)) →
      ((lookupD m (pyLower k)).isSome = true ↔
        ∃ it ∈ data, ∃ o s, it = JVal.jobj o ∧
          jget o "keyword" = some (JVal.jstr s) ∧ pyLower s = pyLower k)) := by
  constructor
  · intro kws s
    rw [containsKeyD, lookupD_initDict]
    rw [show ((lastPick kws (pyLower s)).map
      (fun kw => (⟨kw, 0⟩ : KeywordRecord))).isSome = (lastPick kws (pyLower s)).isSome by
        cases lastPick kws (pyLower s) <;> rfl]
    exact lastPick_isSome_iff kws (pyLower s)
  · intro data m k hb hwf
    have h := idfold_lookup data [] m hb hwf (pyLower k)
    simpa [lookupD] using h

/-- C5 witness: `"fOo"` matches `"Foo"` in the results dict, and `"FOO"`
finds the id of the item with keyword `"Foo"`. -/
theorem c5_witness :
    containsKeyD (initDict ["Foo"]) (pyLower "fOo") = true ∧
    (lookupD [("foo", JVal.jnum 7)] (pyLower "FOO")).isSome = true := by
  constructor
  · exact (c5_case_insensitive_matching.1 ["Foo"] "fOo").mpr
      ⟨"Foo", List.mem_singleton_self _, rfl⟩
  · refine (c5_case_insensitive_matching.2
      [JVal.jobj [("keyword", JVal.jstr "Foo"), ("id", JVal.jnum 7)]]
      [("foo", JVal.jnum 7)] "FOO" rfl ?_).mpr
      ⟨JVal.jobj [("keyword", JVal.jstr "Foo"), ("id", JVal.jnum 7)],
        List.mem_singleton_self _,
        [("keyword", JVal.jstr "Foo"), ("id", JVal.jnum 7)], "Foo", rfl, rfl, rfl⟩
    intro it hit o heq
    rw [List.mem_singleton] at hit
    subst hit
    injection heq with h2
    subst h2
    exact ⟨⟨"Foo", rfl, by simp⟩, ⟨JVal.jnum 7, rfl, rfl⟩⟩

/-! ## Probe equivalence and one-item update semantics (C6) -/

theorem findSome?_id_cons (x : Option JVal) (xs : List (Option JVal)) :
    List.findSome? id (x :: xs) = firstSome x (List.findSome? id xs) := by
  cases x <;> simp [List.findSome?_cons, firstSome, id]

theorem firstSome_assoc (a b c : Option JVal) :
    firstSome (firstSome a b) c = firstSome a (firstSome b c) := by
  cases a <;> rfl

theorem firstSome_none_right (a : Option JVal) : firstSome a none = a := by
  cases a <;> rfl

theorem firstSome_none_left (b : Option JVal) : firstSome none b = b := rfl

theorem jgetNN_nil (k : String) : jgetNN ([] : JObj) k = none := rfl

theorem probeVolume_eq_probeSpec (o : JObj) : probeVolume o = probeSpec o := by
  rw [probeVolume, probeSpec, probeFields]
  cases h : jget o "search_data" with
  | none =>
    simp [findSome?_id_cons, firstSome_assoc, firstSome_none_right,
      firstSome_none_left, jgetNN_nil]
  | some sd =>
    cases sd <;>
      simp [findSome?_id_cons, firstSome_assoc, firstSome_none_right,
        firstSome_none_left, jgetNN_nil]

/-- C6 (amended): for a matched item, the search-volume value is located
by probing the fixed ordered list of key names (`search_data.monthly_searches`,
`search_data.search_volume`, `search_data.volume`, then the same three at
top level; first hit wins), the found value is coerced with Python `int`,
and on success the record is updated to it; if the value is missing or not
coercible the item leaves the record unchanged (so the record is 0 only if
no other matched item had set it).  Other records are untouched. -/
theorem c6_amended_probe_order_and_update (m m₁ : List (String × KeywordRecord))
    (o : JObj) (kw : String)
    (h : processItem m (JVal.jobj o) = some m₁)
    (hkw : kwFieldOf o = some kw)
    (hin : containsKeyD m (pyLower kw) = true) :
    probeVolume o = probeSpec o ∧
    (∀ key, key ≠ pyLower kw → lookupD m₁ key = lookupD m key) ∧
    lookupD m₁ (pyLower kw) =
      (match (probeVolume o).bind pyInt with
       | some n => (lookupD m (pyLower kw)).map
           (fun r => { r with search_volume := n })
       | none => lookupD m (pyLower kw)) := by
  refine ⟨probeVolume_eq_probeSpec o, ?_⟩
  simp only [processItem, hkw, hin, if_true] at h
  cases hv : probeVolume o with
  | none =>
    simp only [hv] at h
    obtain rfl : m = m₁ := Option.some.inj h
    simp [Option.bind]
  | some v =>
    simp only [hv] at h
    cases hn : pyInt v with
    | none =>
      simp only [hn] at h
      obtain rfl : m = m₁ := Option.some.inj h
      simp [Option.bind, hn]
    | some n =>
      simp only [hn] at h
      obtain rfl : setVol m (pyLower kw) n = m₁ := Option.some.inj h
      constructor
      · intro key hne
        rw [lookupD_setVol, if_neg hne]
      · rw [lookupD_setVol, if_pos rfl]
        simp [Option.bind, hn]

/-- C6 witness: instantiation at the item `{keyword: "A", volume: 4}`
against the dict for `["a"]`. -/
theorem c6_amended_witness :
    probeVolume [("keyword", JVal.jstr "A"), ("volume", JVal.jnum 4)] =
      probeSpec [("keyword", JVal.jstr "A"), ("volume", JVal.jnum 4)] ∧
    lookupD (setVol (initDict ["a"]) "a" 4) "a" =
      some { keyword := "a", search_volume := 4 } := by
  have h := c6_amended_probe_order_and_update (initDict ["a"])
    (setVol (initDict ["a"]) "a" 4)
    [("keyword", JVal.jstr "A"), ("volume", JVal.jnum 4)] "A" rfl rfl rfl
  exact ⟨h.1, h.2.2.trans rfl⟩

/-! ## CSV round-trip proofs -/

theorem not_special_elim (c : Char) (h : isSpecialChar c = false) :
    c ≠ ',' ∧ c ≠ '"' ∧ c ≠ '\n' ∧ c ≠ '\r' := by
  simp only [isSpecialChar, Bool.or_eq_false_iff, beq_eq_false_iff_ne, ne_eq] at h
  exact ⟨h.1.1.1, h.1.1.2, h.1.2, h.2⟩

theorem needsQuote_elim (cs : List Char) (h : needsQuote cs = false) :
    ∀ c ∈ cs, isSpecialChar c = false := by
  intro c hc
  simp only [needsQuote, List.any_eq_false] at h
  have h2 := h c hc
  simpa using h2

theorem scan_fs_quote (rest fld : List Char) (row : List (List Char))
    (acc : List (List (List Char))) :
    csvScan ('"' :: rest) CsvSt.fieldStart fld row acc =
      csvScan rest CsvSt.quoted fld row acc := by
  simp [csvScan]

theorem scan_fs_comma (rest fld : List Char) (row : List (List Char))
    (acc : List (List (List Char))) :
    csvScan (',' :: rest) CsvSt.fieldStart fld row acc =
      csvScan rest CsvSt.fieldStart [] (row ++ [fld]) acc := by
  simp [csvScan, (by decide : ¬(',' : Char) = '"')]

theorem scan_fs_nl (rest fld : List Char) (row : List (List Char))
    (acc : List (List (List Char))) :
    csvScan ('\n' :: rest) CsvSt.fieldStart fld row acc =
      csvScan rest CsvSt.fieldStart [] [] (acc ++ [row ++ [fld]]) := by
  simp [csvScan, (by decide : ¬('\n' : Char) = '"'),
    (by decide : ¬('\n' : Char) = ',')]

theorem scan_fs_other (c : Char) (h1 : c ≠ '"') (h2 : c ≠ ',') (h3 : c ≠ '\n')
    (rest fld : List Char) (row : List (List Char))
    (acc : List (List (List Char))) :
    csvScan (c :: rest) CsvSt.fieldStart fld row acc =
      csvScan rest CsvSt.unquoted (fld ++ [c]) row acc := by
  simp [csvScan, h1, h2, h3]

theorem scan_unq_comma (rest fld : List Char) (row : List (List Char))
    (acc : List (List (List Char))) :
    csvScan (',' :: rest) CsvSt.unquoted fld row acc =
      csvScan rest CsvSt.fieldStart [] (row ++ [fld]) acc := by
  simp [csvScan]

theorem scan_unq_nl (rest fld : List Char) (row : List (List Char))
    (acc : List (List (List Char))) :
    csvScan ('\n' :: rest) CsvSt.unquoted fld row acc =
      csvScan rest CsvSt.fieldStart [] [] (acc ++ [row ++ [fld]]) := by
  simp [csvScan, (by decide : ¬('\n' : Char) = ',')]

theorem scan_unq_other (c : Char) (h1 : c ≠ ',') (h2 : c ≠ '\n')
    (rest fld : List Char) (row : List (List Char))
    (acc : List (List (List Char))) :
    csvScan (c :: rest) CsvSt.unquoted fld row acc =
      csvScan rest CsvSt.unquoted (fld ++ [c]) row acc := by
  simp [csvScan, h1, h2]

theorem scan_q_quote (rest fld : List Char) (row : List (List Char))
    (acc : List (List (List Char))) :
    csvScan ('"' :: rest) CsvSt.quoted fld row acc =
      csvScan rest CsvSt.afterQuote fld row acc := by
  simp [csvScan]

theorem scan_q_other (c : Char) (h1 : c ≠ '"') (rest fld : List Char)
    (row : List (List Char)) (acc : List (List (List Char))) :
    csvScan (c :: rest) CsvSt.quoted fld row acc =
      csvScan rest CsvSt.quoted (fld ++ [c]) row acc := by
  simp [csvScan, h1]

theorem scan_aq_quote (rest fld : List Char) (row : List (List Char))
    (acc : List (List (List Char))) :
    csvScan ('"' :: rest) CsvSt.afterQuote fld row acc =
      csvScan rest CsvSt.quoted (fld ++ ['"']) row acc := by
  simp [csvScan]

theorem scan_aq_comma (rest fld : List Char) (row : List (List Char))
    (acc : List (List (List Char))) :
    csvScan (',' :: rest) CsvSt.afterQuote fld row acc =
      csvScan rest CsvSt.fieldStart [] (row ++ [fld]) acc := by
  simp [csvScan, (by decide : ¬(',' : Char) = '"')]

theorem scan_aq_nl (rest fld : List Char) (row : List (List Char))
    (acc : List (List (List Char))) :
    csvScan ('\n' :: rest) CsvSt.afterQuote fld row acc =
      csvScan rest CsvSt.fieldStart [] [] (acc ++ [row ++ [fld]]) := by
  simp [csvScan, (by decide : ¬('\n' : Char) = '"'),
    (by decide : ¬('\n' : Char) = ',')]

theorem csvScan_unquoted (f : List Char)
    (hf : ∀ c ∈ f, isSpecialChar c = false)
    (rest fld : List Char) (row : List (List Char))
    (acc : List (List (List Char))) :
    csvScan (f ++ rest) CsvSt.unquoted fld row acc =
      csvScan rest CsvSt.unquoted (fld ++ f) row acc := by
  induction f generalizing fld with
  | nil => simp
  | cons c t ih =>
    have hc := not_special_elim c (hf c (List.mem_cons_self _ _))
    rw [List.cons_append, scan_unq_other c hc.1 hc.2.2.1,
      ih (fun c2 h2 => hf c2 (List.mem_cons_of_mem _ h2))]
    simp

theorem csvScan_quoted_esc (f : List Char) (rest fld : List Char)
    (row : List (List Char)) (acc : List (List (List Char))) :
    csvScan (escChars f ++ '"' :: rest) CsvSt.quoted fld row acc =
      csvScan rest CsvSt.afterQuote (fld ++ f) row acc := by
  induction f generalizing fld with
  | nil =>
    rw [show escChars [] ++ '"' :: rest = '"' :: rest from rfl, scan_q_quote]
    simp
  | cons c t ih =>
    by_cases hc : c = '"'
    · subst hc
      rw [show escChars ('"' :: t) = '"' :: '"' :: escChars t from by
        simp [escChars]]
      rw [List.cons_append, List.cons_append, scan_q_quote, scan_aq_quote, ih]
      simp
    · rw [show escChars (c :: t) = c :: escChars t from by simp [escChars, hc]]
      rw [List.cons_append, scan_q_other c hc, ih]
      simp

theorem csvScan_field_comma (f : List Char) (rest : List Char)
    (row : List (List Char)) (acc : List (List (List Char))) :
    csvScan (fieldChars f ++ ',' :: rest) CsvSt.fieldStart [] row acc =
      csvScan rest CsvSt.fieldStart [] (row ++ [f]) acc := by
  rw [fieldChars]
  split_ifs with hq
  · rw [show ('"' :: (escChars f ++ ['"'])) ++ ',' :: rest =
        '"' :: (escChars f ++ '"' :: (',' :: rest)) from by simp]
    rw [scan_fs_quote, csvScan_quoted_esc, scan_aq_comma]
    simp
  · cases f with
    | nil => rw [List.nil_append, scan_fs_comma]
    | cons c t =>
      have hall := needsQuote_elim _ (by simpa using hq)
      have hc := not_special_elim c (hall c (List.mem_cons_self _ _))
      rw [List.cons_append, scan_fs_other c hc.2.1 hc.1 hc.2.2.1,
        csvScan_unquoted t (fun c2 h2 => hall c2 (List.mem_cons_of_mem _ h2)),
        scan_unq_comma]
      simp

theorem csvScan_field_nl (f : List Char) (rest : List Char)
    (row : List (List Char)) (acc : List (List (List Char))) :
    csvScan (fieldChars f ++ '\n' :: rest) CsvSt.fieldStart [] row acc =
      csvScan rest CsvSt.fieldStart [] [] (acc ++ [row ++ [f]]) := by
  rw [fieldChars]
  split_ifs with hq
  · rw [show ('"' :: (escChars f ++ ['"'])) ++ '\n' :: rest =
        '"' :: (escChars f ++ '"' :: ('\n' :: rest)) from by simp]
    rw [scan_fs_quote, csvScan_quoted_esc, scan_aq_nl]
    simp
  · cases f with
    | nil => rw [List.nil_append, scan_fs_nl]
    | cons c t =>
      have hall := needsQuote_elim _ (by simpa using hq)
      have hc := not_special_elim c (hall c (List.mem_cons_self _ _))
      rw [List.cons_append, scan_fs_other c hc.2.1 hc.1 hc.2.2.1,
        csvScan_unquoted t (fun c2 h2 => hall c2 (List.mem_cons_of_mem _ h2)),
        scan_unq_nl]
      simp

theorem isDigit_digitChar (d : Nat) (h : d < 10) : (digitChar d).isDigit = true := by
  interval_cases d <;> decide

theorem charDigit_digitChar (d : Nat) (h : d < 10) : charDigit (digitChar d) = d := by
  interval_cases d <;> decide

theorem not_special_digitChar (d : Nat) (h : d < 10) :
    isSpecialChar (digitChar d) = false := by
  interval_cases d <;> decide

theorem natChars_all_digit (n : Nat) : ∀ c ∈ natChars n, c.isDigit = true := by
  intro c hc
  rw [natChars] at hc
  split_ifs at hc with h
  · rw [List.mem_singleton] at hc; subst hc; decide
  · rw [List.mem_reverse] at hc
    rcases List.mem_map.mp hc with ⟨d, hd, rfl⟩
    exact isDigit_digitChar d (Nat.digits_lt_base (by norm_num) hd)

theorem needsQuote_natChars (n : Nat) : needsQuote (natChars n) = false := by
  rw [needsQuote]
  refine List.any_eq_false.mpr ?_
  intro c hc
  rw [natChars] at hc
  split_ifs at hc with h
  · rw [List.mem_singleton] at hc; subst hc; decide
  · rw [List.mem_reverse] at hc
    rcases List.mem_map.mp hc with ⟨d, hd, rfl⟩
    simp [not_special_digitChar d (Nat.digits_lt_base (by norm_num) hd)]

theorem needsQuote_intChars (v : Int) : needsQuote (intChars v) = false := by
  rw [intChars]
  split_ifs with h
  · have h2 := needsQuote_natChars v.natAbs
    rw [needsQuote] at h2 ⊢
    rw [List.any_cons, h2]
    simp [(by decide : isSpecialChar '-' = false)]
  · exact needsQuote_natChars _

theorem fieldChars_intChars (v : Int) : fieldChars (intChars v) = intChars v := by
  rw [fieldChars, if_neg]
  simp [needsQuote_intChars]

theorem csvScan_row (r : KeywordRecord) (rest : List Char)
    (acc : List (List (List Char))) :
    csvScan (rowChars r ++ rest) CsvSt.fieldStart [] [] acc =
      csvScan rest CsvSt.fieldStart [] []
        (acc ++ [[r.keyword.data, intChars r.search_volume]]) := by
  rw [rowChars]
  rw [show (fieldChars r.keyword.data ++ ',' :: (intChars r.search_volume ++ ['\n']))
        ++ rest =
      fieldChars r.keyword.data ++ ',' :: (intChars r.search_volume ++ '\n' :: rest)
      from by simp]
  rw [csvScan_field_comma]
  have hnl := csvScan_field_nl (intChars r.search_volume) rest
    ([] ++ [r.keyword.data]) acc
  rw [fieldChars_intChars] at hnl
  rw [hnl]
  simp

theorem csvScan_rows (rows : List KeywordRecord) (acc : List (List (List Char))) :
    csvScan ((rows.map rowChars).flatten) CsvSt.fieldStart [] [] acc =
      some (acc ++ rows.map (fun r => [r.keyword.data, intChars r.search_volume])) := by
  induction rows generalizing acc with
  | nil => simp [csvScan]
  | cons r rest ih =>
    rw [List.map_cons, List.flatten_cons, csvScan_row, ih]
    simp

theorem csvScan_header (rest : List Char) (acc : List (List (List Char))) :
    csvScan (headerChars ++ rest) CsvSt.fieldStart [] [] acc =
      csvScan rest CsvSt.fieldStart [] []
        (acc ++ [["keyword".data, "search_volume".data]]) := by
  have hk : fieldChars ("keyword".data) = "keyword".data := by
    rw [fieldChars, if_neg (by decide : ¬needsQuote ("keyword".data) = true)]
  have hv : fieldChars ("search_volume".data) = "search_volume".data := by
    rw [fieldChars, if_neg (by decide : ¬needsQuote ("search_volume".data) = true)]
  rw [show headerChars ++ rest =
      fieldChars ("keyword".data) ++
        ',' :: (fieldChars ("search_volume".data) ++ '\n' :: rest) from by
    rw [hk, hv, headerChars]; simp]
  rw [csvScan_field_comma, csvScan_field_nl]
  simp

theorem parseNat_natChars (n : Nat) : parseNatChars (natChars n) = some n := by
  by_cases h : n = 0
  · subst h; rfl
  · rw [natChars, if_neg h, parseNatChars, if_pos]
    · congr 1
      rw [List.map_reverse, List.reverse_reverse, List.map_map]
      rw [show (Nat.digits 10 n).map (charDigit ∘ digitChar) = Nat.digits 10 n from ?_]
      · exact Nat.ofDigits_digits 10 n
      · have hmem : ∀ d ∈ Nat.digits 10 n, (charDigit ∘ digitChar) d = id d :=
          fun d hd => charDigit_digitChar d (Nat.digits_lt_base (by norm_num) hd)
        rw [List.map_congr_left hmem, List.map_id]
    · rw [Bool.and_eq_true]
      constructor
      · simp [Nat.digits_ne_nil_iff_ne_zero.mpr h]
      · rw [List.all_eq_true]
        intro c hc
        have hall := natChars_all_digit n
        rw [natChars, if_neg h] at hall
        exact hall c hc

theorem natChars_head_ne_minus (n : Nat) :
    ∃ c t, natChars n = c :: t ∧ c ≠ '-' := by
  by_cases h : n = 0
  · subst h; exact ⟨'0', [], rfl, by decide⟩
  · rw [natChars, if_neg h]
    cases hr : ((Nat.digits 10 n).map digitChar).reverse with
    | nil =>
      exfalso
      have hne : Nat.digits 10 n ≠ [] := Nat.digits_ne_nil_iff_ne_zero.mpr h
      simp at hr
      exact hne hr
    | cons c t =>
      refine ⟨c, t, rfl, ?_⟩
      have hmem : c ∈ ((Nat.digits 10 n).map digitChar).reverse := by
        rw [hr]; exact List.mem_cons_self _ _
      rw [List.mem_reverse] at hmem
      rcases List.mem_map.mp hmem with ⟨d, hd, rfl⟩
      have hd10 := Nat.digits_lt_base (by norm_num) hd
      interval_cases d <;> decide

theorem parseInt_intChars (v : Int) : parseIntChars (intChars v) = some v := by
  rw [intChars]
  split_ifs with hneg
  · rw [parseIntChars,
      if_pos (show ('-' :: natChars v.natAbs).head? = some '-' from rfl),
      show ('-' :: natChars v.natAbs).tail = natChars v.natAbs from rfl,
      parseNat_natChars]
    simp [abs_of_neg hneg]
  · obtain ⟨c, t, heq, hc⟩ := natChars_head_ne_minus v.toNat
    rw [parseIntChars, heq, if_neg (by simp [hc]), ← heq, parseNat_natChars]
    simp [Int.toNat_of_nonneg (not_lt.mp hneg)]

theorem rows_mapM (rows : List KeywordRecord) :
    (rows.map (fun r => [r.keyword.data, intChars r.search_volume])).mapM rowToPair =
      some (rows.map fun r => (r.keyword, r.search_volume)) := by
  induction rows with
  | nil => rfl
  | cons r rest ih =>
    rw [List.map_cons, List.mapM_cons]
    rw [show rowToPair [r.keyword.data, intChars r.search_volume] =
      (parseIntChars (intChars r.search_volume)).map
        (fun v => (String.mk r.keyword.data, v)) from rfl]
    rw [parseInt_intChars]
    rw [show String.mk r.keyword.data = r.keyword from rfl]
    rw [ih]
    rfl

/-- C7: round-trip — exporting any result table to CSV
(`results_df.to_csv(index=False)`, modelled by `writeCsv`) and re-reading
that CSV with a standard CSV reader reproduces exactly the original
keyword-to-search-volume mapping, including keywords containing commas,
quotes or newlines, and negative volumes. -/
theorem c7_csv_roundtrip (rows : List KeywordRecord) :
    readMapping (writeCsv rows) =
      some (rows.map fun r => (r.keyword, r.search_volume)) := by
  rw [readMapping]
  rw [show (writeCsv rows).data = writeCsvChars rows from rfl]
  rw [writeCsvChars, csvScan_header, csvScan_rows]
  rw [show (([] : List (List (List Char))) ++ [["keyword".data, "search_volume".data]])
      ++ rows.map (fun r => [r.keyword.data, intChars r.search_volume]) =
    ["keyword".data, "search_volume".data] ::
      rows.map (fun r => [r.keyword.data, intChars r.search_volume]) from by simp]
  exact rows_mapM rows
